import Mathlib

/-!
Shallow embedding of the DNS domain-name and question codec of this
repository (`src/rr/domain.rs`, `src/op/query.rs`).

Names are sequences of labels; a label is a sequence of bytes (the Rust
code stores labels as `Rc<String>` and all length checks are on the byte
length, so a label is embedded as its byte list).  The byte-cursor
collaborators (`BinDecoder` / `BinEncoder` of `serialize::binary`) are not
part of the two source files; they are modelled from the spec's interface
description (§6) and marked as such below.

`Name::read` recurses through compression pointers without any bound, so
the embedding carries an explicit fuel argument; `ReadResult.outOfFuel`
for every fuel value models non-termination of the source, and
`ReadResult.panicked` models reaching the `unreachable!()` arm.
-/

namespace TrustDns

/-- A label: the byte string of one name component. -/
abbrev Label := List Nat

/-- `Name.labels`: ordered label list, most specific first (`domain.rs` line 28). -/
abbrev Name := List Label

/-- Decode-side failures surfaced as explicit error values. -/
inductive DecodeError where
  | endOfBuffer
  | unknownRecordTypeCode (n : Nat)
  | unknownDnsClassCode (n : Nat)
deriving DecidableEq

/-- Modelled from the spec: the decode byte cursor of `serialize::binary`
(not under `src/`): a full message buffer plus current absolute position
(pointer jumps clone the cursor at an arbitrary offset of the *same*
buffer, so the whole buffer is kept). -/
structure BinDecoder where
  buf : List Nat
  pos : Nat
deriving DecidableEq

/-- Modelled from the spec: `peek() -> Option<byte>`, no consumption. -/
def BinDecoder.peek (d : BinDecoder) : Option Nat :=
  d.buf[d.pos]?

/-- Modelled from the spec: `pop()` consumes one byte, error when exhausted. -/
def BinDecoder.pop (d : BinDecoder) : Except DecodeError (Nat × BinDecoder) :=
  match d.buf[d.pos]? with
  | some b => .ok (b, ⟨d.buf, d.pos + 1⟩)
  | none => .error .endOfBuffer

/-- Modelled from the spec: `read_u16()` reads a 16-bit big-endian value. -/
def BinDecoder.readU16 (d : BinDecoder) : Except DecodeError (Nat × BinDecoder) :=
  match d.buf[d.pos]?, d.buf[d.pos + 1]? with
  | some b0, some b1 => .ok (b0 * 256 + b1, ⟨d.buf, d.pos + 2⟩)
  | _, _ => .error .endOfBuffer

/-- Modelled from the spec: `read_character_data()` reads one length octet
and then that many bytes. -/
def BinDecoder.readCharacterData (d : BinDecoder) : Except DecodeError (Label × BinDecoder) :=
  match d.buf[d.pos]? with
  | none => .error .endOfBuffer
  | some len =>
    if d.pos + 1 + len ≤ d.buf.length then
      .ok ((d.buf.drop (d.pos + 1)).take len, ⟨d.buf, d.pos + 1 + len⟩)
    else .error .endOfBuffer

/-- Modelled from the spec: `clone(offset)` gives an independent cursor on
the same buffer positioned at the absolute offset. -/
def BinDecoder.clone (d : BinDecoder) (loc : Nat) : BinDecoder :=
  ⟨d.buf, loc⟩

/-- Outcome of `Name::read`.  `err` is an explicit error value; `panicked`
models the `unreachable!()` arm (process abort, not an error value);
`outOfFuel` marks exhaustion of the instrumentation fuel — the source has
no such bound, so an input on which every fuel value yields `outOfFuel`
makes the source recurse forever. -/
inductive ReadResult (α : Type) where
  | ok (val : α) (rem : BinDecoder)
  | err (e : DecodeError)
  | panicked
  | outOfFuel
deriving DecidableEq

/-- The `Root` arm of the state machine: pop the terminating zero octet
(`try!(decoder.pop())`) and finish with the collected labels. -/
def readRoot (d : BinDecoder) (labels : Name) : ReadResult Name :=
  match d.pop with
  | .error e => .err e
  | .ok (_, d') => .ok labels d'

/-- `Name::read` (`domain.rs` lines 116–184), the label parse state machine,
with `labels` the accumulator and one unit of fuel per loop iteration.
Arm order mirrors the source: `Some(0) | None => Root`, then the pointer
guard `byte & 0xC0 == 0xC0`, then `byte <= 0x3F => Label`, then the
`_ => unreachable!()` arm (embedded as `panicked`). -/
def readNameAux (fuel : Nat) (d : BinDecoder) (labels : Name) : ReadResult Name :=
  match fuel with
  | 0 => .outOfFuel
  | fuel + 1 =>
    match d.peek with
    | none => readRoot d labels
    | some b =>
      if b == 0 then readRoot d labels
      else if b &&& 0xC0 == 0xC0 then
        match d.readU16 with
        | .error e => .err e
        | .ok (v, d₂) =>
          match readNameAux fuel (d.clone (v &&& 0x3FFF)) [] with
          | .ok pointed _ => .ok (labels ++ pointed) d₂
          | r => r
      else if b ≤ 0x3F then
        match d.readCharacterData with
        | .error e => .err e
        | .ok (cd, d₃) => readNameAux fuel d₃ (labels ++ [cd])
      else .panicked

/-- `Name::read` entry point: empty accumulator. -/
def readName (fuel : Nat) (d : BinDecoder) : ReadResult Name :=
  readNameAux fuel d []

/-- Encode-side failures of `Name::emit`. -/
inductive EncodeError where
  | labelBytesTooLong (n : Nat)
  | domainNameTooLong (n : Nat)
deriving DecidableEq

/-- Modelled from the spec: the encode buffer plus the compression
dictionary of `serialize::binary` (not under `src/`): an append-only list
of (label-sequence, byte offset of first emission) pairs. -/
structure BinEncoder where
  buf : List Nat
  dict : List (Name × Nat)
deriving DecidableEq

/-- Modelled from the spec: `current_length()` of the buffer. -/
def BinEncoder.len (e : BinEncoder) : Nat :=
  e.buf.length

/-- Modelled from the spec: `emit_byte` appends one byte (u8 cast). -/
def BinEncoder.emit (e : BinEncoder) (b : Nat) : BinEncoder :=
  ⟨e.buf ++ [b % 256], e.dict⟩

/-- Modelled from the spec: `emit_u16` appends a big-endian 16-bit value. -/
def BinEncoder.emitU16 (e : BinEncoder) (v : Nat) : BinEncoder :=
  ⟨e.buf ++ [v / 256 % 256, v % 256], e.dict⟩

/-- Modelled from the spec: `emit_character_data` appends the length octet
followed by the raw bytes. -/
def BinEncoder.emitCharacterData (e : BinEncoder) (l : Label) : BinEncoder :=
  ⟨e.buf ++ (l.length % 256) :: l, e.dict⟩

/-- Modelled from the spec: `lookup_suffix_offset`: the offset at which the
label sequence was first emitted, if recorded. -/
def BinEncoder.getLabelPointer (e : BinEncoder) (key : Name) : Option Nat :=
  (e.dict.find? fun p => p.1 == key).map fun p => p.2

/-- Modelled from the spec: `record_suffix_offset`: record the current
buffer write-offset as this suffix's dictionary entry. -/
def BinEncoder.storeLabelPointer (e : BinEncoder) (key : Name) : BinEncoder :=
  ⟨e.buf, e.dict ++ [(key, e.buf.length)]⟩

/-- The `while let` loop of `Name::emit` (`domain.rs` lines 191–213) plus
the terminator/length check after it (lines 215–223).  `bufLen` is the
`buf_len` snapshot taken at entry.  On error the encoder state reached so
far is returned alongside (the Rust encoder is mutated in place, so
already-written bytes remain in the buffer). -/
def emitLoop : Name → Nat → BinEncoder → Option EncodeError × BinEncoder
  | [], bufLen, e =>
    let e' := e.emit 0
    let length := e'.len - bufLen
    if length > 255 then (some (.domainNameTooLong length), e') else (none, e')
  | label :: rest, bufLen, e =>
    match e.getLabelPointer (label :: rest) with
    | some loc => (none, e.emitU16 (0xC000 ||| (loc &&& 0x3FFF)))
    | none =>
      if label.length > 63 then (some (.labelBytesTooLong label.length), e)
      else emitLoop rest bufLen ((e.storeLabelPointer (label :: rest)).emitCharacterData label)

/-- `Name::emit` (`domain.rs` lines 186–224). -/
def emitName (n : Name) (e : BinEncoder) : Option EncodeError × BinEncoder :=
  emitLoop n e.len e

/-- The uncompressed wire image of a name: each label as a length octet
followed by its bytes, then the zero root terminator. -/
def wireBytes : Name → List Nat
  | [] => [0]
  | l :: rest => l.length :: (l ++ wireBytes rest)

/-- `Name::zone_of` (`domain.rs` lines 77–89): for `i` in `1..=self_len`
compare `self.labels.get(self_len - i)` with `name.labels.get(name_len - i)`.
When `i > name_len` the Rust `usize` subtraction `name_len - i` wraps to a
value at least `2^64 - i`, far beyond any representable vector length, so
`get` yields `None`; the `else none` branch embeds exactly that. -/
def zoneOf (self other : Name) : Bool :=
  (List.range' 1 self.length).all fun i =>
    self[self.length - i]? == if i ≤ other.length then other[other.length - i]? else none

/-- Outcome of the unchecked `Index` operator: Rust `Vec` indexing panics
out of range rather than returning a recoverable value. -/
inductive IndexOutcome where
  | ok (l : Label)
  | panicked
deriving DecidableEq

/-- `impl Index<usize> for Name` (`domain.rs` lines 236–242):
`&*(self.labels[_index])`, with the out-of-bounds panic of `Vec`'s
indexing embedded as `IndexOutcome.panicked`. -/
def indexName (n : Name) (i : Nat) : IndexOutcome :=
  match n[i]? with
  | some l => .ok l
  | none => .panicked

/-- Modelled from the spec: `RecordType` (`src/rr/record_type.rs` is not
under `src/`): a trivial fixed-width 16-bit code enumeration; only the
variants the claims use are carried, with their RFC codes (A = 1,
AAAA = 28). -/
inductive RecordType where
  | A
  | AAAA
deriving DecidableEq

/-- Modelled from the spec: the 16-bit code of a record type. -/
def RecordType.toCode : RecordType → Nat
  | .A => 1
  | .AAAA => 28

/-- Modelled from the spec: `RecordType::read` decodes from two bytes;
an unlisted code is a decode error. -/
def readRecordType (d : BinDecoder) : Except DecodeError (RecordType × BinDecoder) :=
  match d.readU16 with
  | .error e => .error e
  | .ok (v, d') =>
    if v == 1 then .ok (.A, d')
    else if v == 28 then .ok (.AAAA, d')
    else .error (.unknownRecordTypeCode v)

/-- Modelled from the spec: `RecordType::emit` encodes the 16-bit code. -/
def emitRecordType (rt : RecordType) (e : BinEncoder) : BinEncoder :=
  e.emitU16 rt.toCode

/-- Modelled from the spec: `DNSClass` (`src/rr/dns_class.rs` is not under
`src/`): a trivial fixed-width 16-bit code enumeration (IN = 1). -/
inductive DNSClass where
  | IN
deriving DecidableEq

/-- Modelled from the spec: the 16-bit code of a DNS class. -/
def DNSClass.toCode : DNSClass → Nat
  | .IN => 1

/-- Modelled from the spec: `DNSClass::read` decodes from two bytes. -/
def readDNSClass (d : BinDecoder) : Except DecodeError (DNSClass × BinDecoder) :=
  match d.readU16 with
  | .error e => .error e
  | .ok (v, d') =>
    if v == 1 then .ok (.IN, d')
    else .error (.unknownDnsClassCode v)

/-- Modelled from the spec: `DNSClass::emit` encodes the 16-bit code. -/
def emitDNSClass (c : DNSClass) (e : BinEncoder) : BinEncoder :=
  e.emitU16 c.toCode

/-- `Query` (`query.rs` lines 64–67). -/
structure Query where
  name : Name
  query_type : RecordType
  query_class : DNSClass
deriving DecidableEq

/-- `Query::read` (`query.rs` lines 87–93): name, then type, then class,
each sub-decode failure propagated unchanged. -/
def readQuery (fuel : Nat) (d : BinDecoder) : ReadResult Query :=
  match readName fuel d with
  | .ok name d₁ =>
    match readRecordType d₁ with
    | .error e => .err e
    | .ok (qt, d₂) =>
      match readDNSClass d₂ with
      | .error e => .err e
      | .ok (qc, d₃) => .ok ⟨name, qt, qc⟩ d₃
  | .err e => .err e
  | .panicked => .panicked
  | .outOfFuel => .outOfFuel

/-- `Query::emit` (`query.rs` lines 95–101): name, then type, then class;
a name-emit failure propagates unchanged (the fixed-width code emits are
infallible). -/
def emitQuery (q : Query) (e : BinEncoder) : Option EncodeError × BinEncoder :=
  match emitName q.name e with
  | (some err, e') => (some err, e')
  | (none, e') => (none, emitDNSClass q.query_class (emitRecordType q.query_type e'))

/-- The name `ra.rb.rc` of the compression test. -/
def nmRaRbRc : Name := [[114, 97], [114, 98], [114, 99]]

/-- The name `rb.rc` of the compression test. -/
def nmRbRc : Name := [[114, 98], [114, 99]]

/-- The name `rc` of the compression test. -/
def nmRc : Name := [[114, 99]]

/-- The name `z.ra.rb.rc` of the compression test. -/
def nmZRaRbRc : Name := [[122], [114, 97], [114, 98], [114, 99]]

/-- Encoder state after emitting `ra.rb.rc` into a fresh encoder. -/
def cSeq1 : Option EncodeError × BinEncoder := emitName nmRaRbRc ⟨[], []⟩

/-- Encoder state after also emitting `rb.rc`. -/
def cSeq2 : Option EncodeError × BinEncoder := emitName nmRbRc cSeq1.2

/-- Encoder state after also emitting `rc`. -/
def cSeq3 : Option EncodeError × BinEncoder := emitName nmRc cSeq2.2

/-- Encoder state after also emitting `z.ra.rb.rc`. -/
def cSeq4 : Option EncodeError × BinEncoder := emitName nmZRaRbRc cSeq3.2

/-- C2: emitting `ra.rb.rc`, `rb.rc`, `rc`, `z.ra.rb.rc` in sequence into one
shared encoder/dictionary yields cumulative buffer lengths 10, 12, 14, 18
(each later name is its novel prefix labels plus one 2-byte pointer to a
previously stored suffix), and decoding the four names back from that
buffer in order reproduces the four originals. -/
theorem compression_sequence_sizes_and_roundtrip :
    cSeq1.1 = none ∧ cSeq1.2.len = 10 ∧
    cSeq2.1 = none ∧ cSeq2.2.len = 12 ∧
    cSeq3.1 = none ∧ cSeq3.2.len = 14 ∧
    cSeq4.1 = none ∧ cSeq4.2.len = 18 ∧
    cSeq4.2.buf = [2, 114, 97, 2, 114, 98, 2, 114, 99, 0, 0xC0, 3, 0xC0, 6, 1, 122, 0xC0, 0] ∧
    readName 8 ⟨cSeq4.2.buf, 0⟩ = .ok nmRaRbRc ⟨cSeq4.2.buf, 10⟩ ∧
    readName 8 ⟨cSeq4.2.buf, 10⟩ = .ok nmRbRc ⟨cSeq4.2.buf, 12⟩ ∧
    readName 8 ⟨cSeq4.2.buf, 12⟩ = .ok nmRc ⟨cSeq4.2.buf, 14⟩ ∧
    readName 8 ⟨cSeq4.2.buf, 14⟩ = .ok nmZRaRbRc ⟨cSeq4.2.buf, 18⟩ := by
  decide

/-- C4: a peeked byte whose top two bits are `01` (0x40) or `10` (0x80) falls
through to the `_ => unreachable!()` arm of the state machine: the decode
does not return an error value but panics (unrecoverable termination),
embedded as `ReadResult.panicked`. -/
theorem read_reserved_bits_panics :
    readName 1 ⟨[0x40], 0⟩ = .panicked ∧ readName 1 ⟨[0x80], 0⟩ = .panicked ∧
    (∀ e : DecodeError, readName 1 ⟨[0x40], 0⟩ ≠ .err e) := by
  have h40 : readName 1 ⟨[0x40], 0⟩ = ReadResult.panicked := by decide
  refine ⟨h40, by decide, fun e h => ?_⟩
  rw [h40] at h
  exact ReadResult.noConfusion h

/-- C6: on the self-referential compression pointer `[0xC0, 0x00]` (a pointer
whose 14-bit offset is its own position) the decode recursion never
terminates: every fuel value is exhausted. -/
theorem read_pointer_cycle_diverges (fuel : Nat) :
    readName fuel ⟨[0xC0, 0x00], 0⟩ = .outOfFuel := by
  unfold readName
  induction fuel with
  | zero => rfl
  | succ n ih =>
    have step : readNameAux (n + 1) ⟨[0xC0, 0x00], 0⟩ [] =
        (match readNameAux n ⟨[0xC0, 0x00], 0⟩ [] with
         | ReadResult.ok pointed _ => ReadResult.ok ([] ++ pointed) ⟨[0xC0, 0x00], 2⟩
         | r => r) := rfl
    rw [step, ih]

lemma readU16_structure (d : BinDecoder) (v : Nat) (d₂ : BinDecoder)
    (h : d.readU16 = .ok (v, d₂)) : d₂ = ⟨d.buf, d.pos + 2⟩ := by
  unfold BinDecoder.readU16 at h
  cases h0 : d.buf[d.pos]? <;> cases h1 : d.buf[d.pos + 1]? <;> rw [h0, h1] at h <;>
    simp_all

/-- C3: when the peeked byte has both top bits set, a successful decode step
reads the 16-bit pointer, masks the top two bits off, decodes recursively
through an independent cursor repositioned at that 14-bit offset on the
same buffer, appends the labels so obtained after the ones already
collected, and leaves the caller's cursor exactly 2 bytes (the pointer
field) past where it was. -/
theorem read_pointer_terminates (fuel : Nat) (d : BinDecoder) (acc : Name) (b : Nat)
    (ls : Name) (d' : BinDecoder)
    (hpk : d.peek = some b) (hb : b &&& 0xC0 = 0xC0)
    (h : readNameAux (fuel + 1) d acc = .ok ls d') :
    d'.buf = d.buf ∧ d'.pos = d.pos + 2 ∧
    ∃ v pointed pd, d.readU16 = .ok (v, ⟨d.buf, d.pos + 2⟩) ∧
      readNameAux fuel (d.clone (v &&& 0x3FFF)) [] = .ok pointed pd ∧
      ls = acc ++ pointed := by
  have hb0 : (b == 0) = false := by
    refine beq_eq_false_iff_ne.mpr fun h0 => ?_
    subst h0
    exact absurd hb (by decide)
  have hbc : (b &&& 0xC0 == 0xC0) = true := beq_iff_eq.mpr hb
  simp only [readNameAux, hpk, hb0, hbc, Bool.false_eq_true, if_false, if_true] at h
  cases hu : d.readU16 with
  | error e => simp [hu] at h
  | ok p =>
    obtain ⟨v, d₂⟩ := p
    have hd₂ : d₂ = ⟨d.buf, d.pos + 2⟩ := readU16_structure d v d₂ hu
    simp only [hu] at h
    cases hrec : readNameAux fuel (d.clone (v &&& 0x3FFF)) [] with
    | ok pointed pd =>
      simp only [hrec, ReadResult.ok.injEq] at h
      obtain ⟨hls, hd'⟩ := h
      subst hd'
      subst hd₂
      exact ⟨rfl, rfl, v, pointed, pd, rfl, hrec, hls.symm⟩
    | err e => simp [hrec] at h
    | panicked => simp [hrec] at h
    | outOfFuel => simp [hrec] at h

/-- Concrete buffer for exercising the pointer arm: a name `a` at offset 0
followed at offset 3 by a pointer to offset 0. -/
def ptrBuf : List Nat := [1, 97, 0, 0xC0, 0]

/-- Witness for C3: the pointer at offset 3 of `ptrBuf` decodes the name at
offset 0 through a cloned cursor and advances the caller by exactly 2. -/
theorem read_pointer_terminates_witness :
    (⟨ptrBuf, 5⟩ : BinDecoder).buf = (⟨ptrBuf, 3⟩ : BinDecoder).buf ∧
    (⟨ptrBuf, 5⟩ : BinDecoder).pos = (⟨ptrBuf, 3⟩ : BinDecoder).pos + 2 ∧
    ∃ v pointed pd,
      BinDecoder.readU16 ⟨ptrBuf, 3⟩ = .ok (v, ⟨(⟨ptrBuf, 3⟩ : BinDecoder).buf, (⟨ptrBuf, 3⟩ : BinDecoder).pos + 2⟩) ∧
      readNameAux 2 (BinDecoder.clone ⟨ptrBuf, 3⟩ (v &&& 0x3FFF)) [] = .ok pointed pd ∧
      [[97]] = [] ++ pointed :=
  read_pointer_terminates 2 ⟨ptrBuf, 3⟩ [] 0xC0 [[97]] ⟨ptrBuf, 5⟩
    (by decide) (by decide) (by decide)

lemma zone_of_iff (self other : Name) :
    zoneOf self other = true ↔
      (self.length ≤ other.length ∧
       ∀ i, 1 ≤ i → i ≤ self.length →
         self[self.length - i]? = other[other.length - i]?) := by
  unfold zoneOf
  rw [List.all_eq_true]
  constructor
  · intro H
    have hle : self.length ≤ other.length := by
      by_contra hlt
      push_neg at hlt
      have hmem : other.length + 1 ∈ List.range' 1 self.length :=
        List.mem_range'_1.mpr ⟨by omega, by omega⟩
      have hx := H _ hmem
      rw [if_neg (by omega)] at hx
      have hidx : self.length - (other.length + 1) < self.length := by omega
      rw [List.getElem?_eq_getElem hidx] at hx
      simp at hx
    refine ⟨hle, fun i h1 h2 => ?_⟩
    have hmem : i ∈ List.range' 1 self.length := List.mem_range'_1.mpr ⟨h1, by omega⟩
    have hx := H _ hmem
    rw [if_pos (by omega)] at hx
    exact eq_of_beq hx
  · rintro ⟨hle, hall⟩ i hmem
    obtain ⟨h1, h2⟩ := List.mem_range'_1.mp hmem
    rw [if_pos (by omega)]
    exact beq_iff_eq.mpr (hall i h1 (by omega))

/-- C7: `zone_of` is true exactly when self's labels are a suffix of other's
labels counted from the root end (self no longer than other, each label of
self equal to other's label at the same distance from the root); it is
reflexive, and false whenever self has more labels than other. -/
theorem zone_of_spec (self other : Name) :
    (zoneOf self other = true ↔
      (self.length ≤ other.length ∧
       ∀ i, 1 ≤ i → i ≤ self.length →
         self[self.length - i]? = other[other.length - i]?)) ∧
    zoneOf self self = true ∧
    (other.length < self.length → zoneOf self other = false) := by
  refine ⟨zone_of_iff self other, ?_, ?_⟩
  · exact (zone_of_iff self self).mpr ⟨le_refl _, fun i _ _ => rfl⟩
  · intro hlt
    cases hz : zoneOf self other with
    | false => rfl
    | true => exact absurd ((zone_of_iff self other).mp hz).1 (by omega)

/-- Witness for C7: a two-label name is not a zone of a one-label name. -/
theorem zone_of_spec_witness : zoneOf [[99], [98]] [[99]] = false :=
  (zone_of_spec [[99], [98]] [[99]]).2.2 (by decide)

/-- C10: the index operator is unchecked: out of range it panics rather than
returning a recoverable value, and in range it is total, returning the
label at that position. -/
theorem index_name_unchecked (n : Name) (i : Nat) :
    (n.length ≤ i → indexName n i = .panicked) ∧
    (i < n.length → ∃ l, n[i]? = some l ∧ indexName n i = .ok l) := by
  constructor
  · intro h
    unfold indexName
    rw [List.getElem?_eq_none h]
  · intro h
    refine ⟨n[i], List.getElem?_eq_getElem h, ?_⟩
    unfold indexName
    rw [List.getElem?_eq_getElem h]

/-- Witness for C10: indexing the one-label name at position 1 panics, at
position 0 it returns the label. -/
theorem index_name_unchecked_witness :
    ([[97]] : Name).length ≤ 1 ∧ indexName [[97]] 1 = .panicked ∧
    0 < ([[97]] : Name).length ∧ ∃ l, ([[97]] : Name)[0]? = some l ∧ indexName [[97]] 0 = .ok l :=
  ⟨by decide, (index_name_unchecked [[97]] 1).1 (by decide), by decide,
    (index_name_unchecked [[97]] 0).2 (by decide)⟩

lemma and192_of_le63 (n : Nat) (h : n ≤ 63) : n &&& 0xC0 = 0 := by
  interval_cases n <;> rfl

lemma peek_of_drop (buf : List Nat) (pos : Nat) (x : Nat) (xs : List Nat)
    (h : buf.drop pos = x :: xs) : buf[pos]? = some x := by
  have h0 := List.getElem?_drop buf pos 0
  rw [h] at h0
  simpa using h0.symm

/-- Decoding the literal (pointer-free) wire image of a name, written at the
cursor position and followed by arbitrary bytes, collects exactly the
name's labels after the accumulator and stops just past the root byte. -/
lemma readNameAux_wire (labels : Name) :
    ∀ (fuel : Nat) (d : BinDecoder) (acc : Name) (rest : List Nat),
      labels.length < fuel →
      (∀ l ∈ labels, l ≠ [] ∧ l.length ≤ 63) →
      d.buf.drop d.pos = wireBytes labels ++ rest →
      readNameAux fuel d acc =
        .ok (acc ++ labels) ⟨d.buf, d.pos + (wireBytes labels).length⟩ := by
  induction labels with
  | nil =>
    intro fuel d acc rest hfuel hlab hdrop
    obtain ⟨f, rfl⟩ : ∃ f, fuel = f + 1 := ⟨fuel - 1, by omega⟩
    simp only [wireBytes, List.cons_append, List.nil_append] at hdrop
    have hpk : d.buf[d.pos]? = some 0 := peek_of_drop _ _ _ _ hdrop
    simp only [readNameAux, BinDecoder.peek, hpk, readRoot, BinDecoder.pop]
    simp [wireBytes]
  | cons l ls ih =>
    intro fuel d acc rest hfuel hlab hdrop
    obtain ⟨f, rfl⟩ : ∃ f, fuel = f + 1 := ⟨fuel - 1, by omega⟩
    obtain ⟨hl_ne, hl_le⟩ := hlab l (by simp)
    have hlab' : ∀ x ∈ ls, x ≠ [] ∧ x.length ≤ 63 := fun x hx => hlab x (by simp [hx])
    simp only [wireBytes, List.cons_append] at hdrop
    have hpk : d.buf[d.pos]? = some l.length := peek_of_drop _ _ _ _ hdrop
    have hlen_pos : l.length ≠ 0 := fun hz => hl_ne (List.eq_nil_of_length_eq_zero hz)
    have hb0 : (l.length == 0) = false := beq_eq_false_iff_ne.mpr hlen_pos
    have hmask : (l.length &&& 0xC0 == 0xC0) = false := by
      rw [and192_of_le63 l.length hl_le]
      decide
    have hdrop1 : d.buf.drop (d.pos + 1) = l ++ (wireBytes ls ++ rest) := by
      have hd := congrArg (List.drop 1) hdrop
      rw [List.drop_drop] at hd
      simpa [List.append_assoc] using hd
    have hbound : d.pos + 1 + l.length ≤ d.buf.length := by
      have hlen := congrArg List.length hdrop1
      rw [List.length_drop] at hlen
      simp [List.length_append] at hlen
      omega
    have hcd : d.readCharacterData = .ok (l, ⟨d.buf, d.pos + 1 + l.length⟩) := by
      unfold BinDecoder.readCharacterData
      simp only [hpk]
      rw [if_pos hbound, hdrop1, List.take_left]
    simp only [readNameAux, BinDecoder.peek, hpk, hb0, hmask, Bool.false_eq_true, if_false]
    rw [if_pos (show l.length ≤ 0x3F from hl_le)]
    simp only [hcd]
    have hdrop2 : d.buf.drop (d.pos + 1 + l.length) = wireBytes ls ++ rest := by
      have hd := congrArg (List.drop l.length) hdrop1
      rw [List.drop_drop, List.drop_left] at hd
      rw [Nat.add_assoc] at hd ⊢
      rw [show 1 + l.length = l.length + 1 by omega] at hd ⊢
      rw [← Nat.add_assoc] at hd ⊢
      exact hd
    have hrec := ih f ⟨d.buf, d.pos + 1 + l.length⟩ (acc ++ [l]) rest (by simp at hfuel ⊢; omega)
      hlab' (by simpa using hdrop2)
    simp only at hrec
    rw [hrec]
    have h1 : (acc ++ [l]) ++ ls = acc ++ l :: ls := by simp
    have h2 : d.pos + 1 + l.length + (wireBytes ls).length = d.pos + (wireBytes (l :: ls)).length := by
      simp [wireBytes]
      omega
    rw [h1, h2]

lemma getLabelPointer_snoc_none (dict : List (Name × Nat)) (buf buf' : List Nat)
    (entry : Name × Nat) (key : Name)
    (h1 : BinEncoder.getLabelPointer ⟨buf, dict⟩ key = none) (h2 : entry.1 ≠ key) :
    BinEncoder.getLabelPointer ⟨buf', dict ++ [entry]⟩ key = none := by
  unfold BinEncoder.getLabelPointer at h1 ⊢
  rw [List.find?_append]
  have hn := Option.map_eq_none'.mp h1
  rw [hn]
  have hp : (entry.1 == key) = false := beq_eq_false_iff_ne.mpr h2
  simp [List.find?_cons, hp]

/-- Running `Name::emit` on a name none of whose suffixes is in the
dictionary writes exactly the literal wire image, and errors exactly when
the bytes written for the name exceed 255. -/
lemma emitLoop_literal (labels : Name) :
    ∀ (e : BinEncoder) (bufLen : Nat),
      (∀ l ∈ labels, l.length ≤ 63) →
      (∀ i < labels.length, e.getLabelPointer (labels.drop i) = none) →
      ∃ dict',
        emitLoop labels bufLen e =
          ((if e.buf.length + (wireBytes labels).length - bufLen > 255
            then some (.domainNameTooLong (e.buf.length + (wireBytes labels).length - bufLen))
            else none),
           ⟨e.buf ++ wireBytes labels, dict'⟩) := by
  induction labels with
  | nil =>
    intro e bufLen hle hdict
    refine ⟨e.dict, ?_⟩
    simp only [emitLoop, wireBytes, BinEncoder.emit, BinEncoder.len]
    have hz : (0 : Nat) % 256 = 0 := by decide
    rw [hz]
    have hlen : (e.buf ++ [0]).length = e.buf.length + [0].length := List.length_append _ _
    rw [hlen]
    simp only [List.length_cons, List.length_nil, Nat.zero_add]
    split <;> rfl
  | cons l ls ih =>
    intro e bufLen hle hdict
    have h0 : e.getLabelPointer (l :: ls) = none := by
      have := hdict 0 (by simp)
      simpa using this
    have hl63 : l.length ≤ 63 := hle l (by simp)
    simp only [emitLoop, h0]
    rw [if_neg (by omega : ¬ l.length > 63)]
    have hmod : l.length % 256 = l.length := Nat.mod_eq_of_lt (by omega)
    have hdict' : ∀ i < ls.length,
        BinEncoder.getLabelPointer
          ⟨e.buf ++ l.length % 256 :: l, e.dict ++ [((l :: ls), e.buf.length)]⟩
          (ls.drop i) = none := by
      intro i hi
      have hold : e.getLabelPointer ((l :: ls).drop (i + 1)) = none :=
        hdict (i + 1) (by simp; omega)
      rw [List.drop_succ_cons] at hold
      refine getLabelPointer_snoc_none e.dict e.buf _ ((l :: ls), e.buf.length) (ls.drop i) ?_ ?_
      · exact hold
      · intro hcontra
        have hlencontra := congrArg List.length hcontra
        simp [List.length_drop] at hlencontra
        omega
    obtain ⟨dict', hrec⟩ :=
      ih ⟨e.buf ++ l.length % 256 :: l, e.dict ++ [((l :: ls), e.buf.length)]⟩ bufLen
        (fun x hx => hle x (by simp [hx])) hdict'
    simp only [BinEncoder.storeLabelPointer, BinEncoder.emitCharacterData]
    rw [hrec]
    have harith : (e.buf ++ l.length % 256 :: l).length + (wireBytes ls).length =
        e.buf.length + (wireBytes (l :: ls)).length := by
      simp [wireBytes, hmod]
      omega
    have hbuf : (e.buf ++ l.length % 256 :: l) ++ wireBytes ls = e.buf ++ wireBytes (l :: ls) := by
      simp [wireBytes, hmod]
    simp only at harith hbuf ⊢
    rw [harith, hbuf]
    exact ⟨dict', rfl⟩

/-- C1: encoding any name of non-empty labels of at most 63 bytes each and
total wire image at most 255 bytes with a fresh encoder succeeds, and
decoding the produced buffer with a fresh decoder returns exactly the
original name, consuming the whole buffer. -/
theorem name_emit_read_roundtrip (labels : Name)
    (hlab : ∀ l ∈ labels, l ≠ [] ∧ l.length ≤ 63)
    (hlen : (wireBytes labels).length ≤ 255) :
    ∃ e' : BinEncoder, emitName labels ⟨[], []⟩ = (none, e') ∧
      readName (labels.length + 1) ⟨e'.buf, 0⟩ = .ok labels ⟨e'.buf, e'.buf.length⟩ := by
  obtain ⟨dict', hemit⟩ :=
    emitLoop_literal labels ⟨[], []⟩ 0 (fun l hl => (hlab l hl).2) (fun i hi => rfl)
  simp only at hemit
  rw [if_neg (by simp; omega)] at hemit
  rw [show ([] : List Nat) ++ wireBytes labels = wireBytes labels from by simp] at hemit
  refine ⟨⟨wireBytes labels, dict'⟩, ?_, ?_⟩
  · show emitLoop labels (BinEncoder.len ⟨[], []⟩) ⟨[], []⟩ = _
    exact hemit
  · have hread := readNameAux_wire labels (labels.length + 1) ⟨wireBytes labels, 0⟩ [] []
      (by omega) hlab (by simp)
    unfold readName
    simpa using hread

/-- Witness for C1: the single-label name `a` round-trips. -/
theorem name_emit_read_roundtrip_witness :
    (∀ l ∈ ([[97]] : Name), l ≠ [] ∧ l.length ≤ 63) ∧
    (wireBytes [[97]]).length ≤ 255 ∧
    ∃ e' : BinEncoder, emitName [[97]] ⟨[], []⟩ = (none, e') ∧
      readName (([[97]] : Name).length + 1) ⟨e'.buf, 0⟩ = .ok [[97]] ⟨e'.buf, e'.buf.length⟩ :=
  ⟨by decide, by decide, name_emit_read_roundtrip [[97]] (by decide) (by decide)⟩

/-- Whenever `Name::emit` reports `DomainNameTooLong n`, `n` is the number of
bytes this emit wrote past the entry snapshot and it exceeds 255. -/
lemma emitLoop_dnTooLong (labels : Name) :
    ∀ (e : BinEncoder) (bufLen : Nat) (n : Nat),
      (emitLoop labels bufLen e).1 = some (.domainNameTooLong n) →
      n = (emitLoop labels bufLen e).2.len - bufLen ∧ n > 255 := by
  induction labels with
  | nil =>
    intro e bufLen n h
    simp only [emitLoop] at h ⊢
    by_cases hc : (e.emit 0).len - bufLen > 255
    · rw [if_pos hc] at h ⊢
      simp only [Option.some.injEq, EncodeError.domainNameTooLong.injEq] at h
      subst h
      exact ⟨rfl, hc⟩
    · rw [if_neg hc] at h
      simp at h
  | cons l ls ih =>
    intro e bufLen n h
    simp only [emitLoop] at h ⊢
    cases hlp : e.getLabelPointer (l :: ls) with
    | some loc => simp [hlp] at h
    | none =>
      simp only [hlp] at h ⊢
      by_cases hlen : l.length > 63
      · rw [if_pos hlen] at h
        simp at h
      · rw [if_neg hlen] at h ⊢
        exact ih _ bufLen n h

/-- A 63-byte label. -/
def bigLabel : Label := List.replicate 63 97

/-- An encoder whose dictionary already maps the one-label name `c` to
offset 0 (the state after some earlier name ending in that suffix). -/
def primedEnc : BinEncoder := ⟨[], [([[99]], 0)]⟩

/-- A name of four 63-byte labels on top of the suffix `c`: its emit against
`primedEnc` writes 4 × 64 literal bytes plus one 2-byte pointer = 258 bytes. -/
def overName : Name := [bigLabel, bigLabel, bigLabel, bigLabel, [99]]

set_option maxRecDepth 100000 in
/-- Counterexample to C5 as stated: this completed emit writes 258 bytes for
one name — more than 255 — yet returns success, because the emit ended by
writing a compression pointer and that return path never performs the
length check. -/
theorem emit_over_255_via_pointer_succeeds :
    (emitName overName primedEnc).1 = none ∧
    (emitName overName primedEnc).2.len - primedEnc.len = 258 := by
  constructor
  · decide
  · decide

/-- C5 (amended): the name-length check runs only on emits that end with the
root byte (no pointer found): for those, success or `DomainNameTooLong` is
decided exactly by whether the bytes written exceed 255; an emit
terminated by a compression pointer skips the check; and whenever
`DomainNameTooLong n` is returned, `n` is the byte count written for this
name (the bytes stay in the buffer) and exceeds 255, so an emit that wrote
at most 255 bytes never fails with this error. -/
theorem emit_length_check_amended :
    (∀ (labels : Name) (e : BinEncoder) (n : Nat),
      (emitName labels e).1 = some (.domainNameTooLong n) →
      n = (emitName labels e).2.len - e.len ∧ n > 255) ∧
    (∀ (labels : Name) (e : BinEncoder),
      (∀ l ∈ labels, l.length ≤ 63) →
      (∀ i < labels.length, e.getLabelPointer (labels.drop i) = none) →
      (emitName labels e).1 =
        if (wireBytes labels).length > 255
        then some (.domainNameTooLong (wireBytes labels).length) else none) := by
  constructor
  · intro labels e n h
    exact emitLoop_dnTooLong labels e e.len n h
  · intro labels e hle hdict
    obtain ⟨dict', hemit⟩ := emitLoop_literal labels e e.len hle hdict
    unfold emitName
    rw [hemit]
    have harith : e.buf.length + (wireBytes labels).length - e.len = (wireBytes labels).length := by
      unfold BinEncoder.len
      omega
    rw [harith]

/-- Witness for C5 (amended): a short name with an empty dictionary passes
the length check and emits without error. -/
theorem emit_length_check_amended_witness :
    (emitName [[97]] ⟨[], []⟩).1 =
      (if (wireBytes [[97]]).length > 255
       then some (.domainNameTooLong (wireBytes [[97]]).length) else none) :=
  emit_length_check_amended.2 [[97]] ⟨[], []⟩ (by decide) (fun i hi => rfl)

/-- Result of emitting a name with a single 64-byte label into a fresh
encoder (fails, leaving the encoder untouched). -/
def eLongLabel : Option EncodeError × BinEncoder := emitName [List.replicate 64 97] ⟨[], []⟩

/-- Result of then emitting the unrelated name `a.bc` against the same
encoder state. -/
def eAfterLong : Option EncodeError × BinEncoder := emitName [[97], [98, 99]] eLongLabel.2

/-- C8: a label longer than 63 bytes makes `Name::emit` fail with
`LabelBytesTooLong` immediately — no byte of that label is written and its
suffix is not stored in the dictionary (the encoder is exactly as it was
when the oversized label was reached) — and after such a failed emit,
emitting and decoding an unrelated subsequent name still works. -/
theorem label_too_long_spec :
    (∀ (l : Label) (rest : Name) (bufLen : Nat) (e : BinEncoder),
      e.getLabelPointer (l :: rest) = none → l.length > 63 →
      emitLoop (l :: rest) bufLen e = (some (.labelBytesTooLong l.length), e)) ∧
    eLongLabel = (some (.labelBytesTooLong 64), ⟨[], []⟩) ∧
    eAfterLong.1 = none ∧
    readName 3 ⟨eAfterLong.2.buf, 0⟩ = .ok [[97], [98, 99]] ⟨eAfterLong.2.buf, 6⟩ := by
  refine ⟨?_, by decide, by decide, by decide⟩
  intro l rest bufLen e hlp hlen
  simp only [emitLoop, hlp]
  rw [if_pos hlen]

/-- Witness for C8: the oversized-label arm applied at the concrete
64-byte label against a fresh encoder. -/
theorem label_too_long_spec_witness :
    BinEncoder.getLabelPointer ⟨[], []⟩ [List.replicate 64 97] = none ∧
    (List.replicate 64 97).length > 63 ∧
    emitLoop [List.replicate 64 97] 0 ⟨[], []⟩ =
      (some (.labelBytesTooLong (List.replicate 64 97).length), ⟨[], []⟩) :=
  ⟨rfl, by decide,
    label_too_long_spec.1 (List.replicate 64 97) [] 0 ⟨[], []⟩ rfl (by decide)⟩

/-- The question of the query round-trip test:
{name = www.example.com, type = AAAA, class = IN}. -/
def cQuery : Query :=
  ⟨[[119, 119, 119], [101, 120, 97, 109, 112, 108, 101], [99, 111, 109]], .AAAA, .IN⟩

/-- Result of emitting that question into a fresh encoder. -/
def cQueryEmit : Option EncodeError × BinEncoder := emitQuery cQuery ⟨[], []⟩

/-- C9: question decode reads name, then 16-bit type code, then 16-bit class
code in that order and propagates the first sub-decode error unchanged —
whether the name decode fails, the record-type decode fails after a
successful name, or the class decode fails after a successful name and
type; question encode emits the three fields in the same order and
propagates a sub-encode error unchanged; and {www.example.com, AAAA, IN}
encoded with a fresh encoder decodes back to the identical triple. -/
theorem query_codec_spec :
    (∀ (fuel : Nat) (d : BinDecoder) (e : DecodeError),
      readName fuel d = .err e → readQuery fuel d = .err e) ∧
    (∀ (fuel : Nat) (d : BinDecoder) (name : Name) (d₁ : BinDecoder) (e : DecodeError),
      readName fuel d = .ok name d₁ → readRecordType d₁ = .error e →
      readQuery fuel d = .err e) ∧
    (∀ (fuel : Nat) (d : BinDecoder) (name : Name) (d₁ : BinDecoder)
      (qt : RecordType) (d₂ : BinDecoder) (e : DecodeError),
      readName fuel d = .ok name d₁ → readRecordType d₁ = .ok (qt, d₂) →
      readDNSClass d₂ = .error e → readQuery fuel d = .err e) ∧
    (∀ (q : Query) (enc enc' : BinEncoder) (err : EncodeError),
      emitName q.name enc = (some err, enc') → emitQuery q enc = (some err, enc')) ∧
    cQueryEmit.1 = none ∧
    readQuery 4 ⟨cQueryEmit.2.buf, 0⟩ = .ok cQuery ⟨cQueryEmit.2.buf, cQueryEmit.2.buf.length⟩ := by
  refine ⟨?_, ?_, ?_, ?_, by decide, by decide⟩
  · intro fuel d e h
    unfold readQuery
    rw [h]
  · intro fuel d name d₁ e h1 h2
    unfold readQuery
    simp only [h1, h2]
  · intro fuel d name d₁ qt d₂ e h1 h2 h3
    unfold readQuery
    simp only [h1, h2, h3]
  · intro q enc enc' err h
    unfold emitQuery
    rw [h]

/-- Witness for C9: a name decode failure on the empty buffer, a record-type
failure (unknown code 99) after the root-only name, and a class decode
failure (buffer exhausted) after a successful name and type all propagate
unchanged through the question decode. -/
theorem query_codec_spec_witness :
    readQuery 1 ⟨[], 0⟩ = .err .endOfBuffer ∧
    readQuery 1 ⟨[0, 0, 99], 0⟩ = .err (.unknownRecordTypeCode 99) ∧
    readQuery 1 ⟨[0, 0, 28, 0], 0⟩ = .err .endOfBuffer :=
  ⟨query_codec_spec.1 1 ⟨[], 0⟩ .endOfBuffer (by decide),
   query_codec_spec.2.1 1 ⟨[0, 0, 99], 0⟩ [] ⟨[0, 0, 99], 1⟩
     (.unknownRecordTypeCode 99) (by decide) rfl,
   query_codec_spec.2.2.1 1 ⟨[0, 0, 28, 0], 0⟩ [] ⟨[0, 0, 28, 0], 1⟩
     .AAAA ⟨[0, 0, 28, 0], 3⟩ .endOfBuffer (by decide) rfl rfl⟩

end TrustDns
